import Mathlib

/-!
Verification of the rNews per-category dispatch pipeline against its
natural-language specification.  The definitions below are a shallow
embedding of the TypeScript sources: `dispatcher.ts` (TitleDeduplicator,
dispatch), `translator.ts` (needsTranslation, translateTitles),
`formatter.ts` (formatSourceSection, formatNewsMessages) and
`sources/rss-source.ts` (fetchSingleFeed, fetchSingleRssSource).
JavaScript numbers only ever hold small integers or exact small ratios
here, so counts are modelled as `Nat`/`Int` and the two ratio
comparisons (`jaccard ... >= threshold`, `cjkCount / meaningfulChars <
0.3`) as exact comparisons in `ℚ`; string lengths are measured in
UTF-16 code units exactly as JavaScript's `String.prototype.length`.
-/

/-- Number of UTF-16 code units a character occupies: JavaScript strings
are sequences of UTF-16 units, so astral-plane characters count 2. -/
def utf16Len (c : Char) : Nat :=
  if c.val ≥ 0x10000 then 2 else 1

/-- JavaScript `String.prototype.length` (UTF-16 code units). -/
def jsLength (s : String) : Nat :=
  (s.data.map utf16Len).sum

/-- The character class of JavaScript's regex `\s` (WhiteSpace ∪
LineTerminator): tab, LF, VT, FF, CR, space, NBSP, Ogham space, the
U+2000–200A spaces, LS, PS, NNBSP, MMSP, ideographic space, BOM. -/
def isJsWhitespace (c : Char) : Bool :=
  let v := c.val
  (0x9 ≤ v && v ≤ 0xd) || v == 0x20 || v == 0xa0 || v == 0x1680 ||
  (0x2000 ≤ v && v ≤ 0x200a) || v == 0x2028 || v == 0x2029 ||
  v == 0x202f || v == 0x205f || v == 0x3000 || v == 0xfeff

/-- ASCII digit, the class of regex `\d`. -/
def isAsciiDigit (c : Char) : Bool :=
  0x30 ≤ c.val && c.val ≤ 0x39

/-- The CJK class of the deduplicator's token extraction
(`dispatcher.ts`, regex `[一-鿿]`). -/
def isCjkDedup (c : Char) : Bool :=
  0x4e00 ≤ c.val && c.val ≤ 0x9fff

/-- The CJK class of the translator's `needsTranslation`
(`translator.ts`, regex `[一-鿿㐀-䶿豈-﫿]`). -/
def isCjkTranslator (c : Char) : Bool :=
  (0x4e00 ≤ c.val && c.val ≤ 0x9fff) ||
  (0x3400 ≤ c.val && c.val ≤ 0x4dbf) ||
  (0xf900 ≤ c.val && c.val ≤ 0xfaff)

/-- The two extra ranges the translator's CJK class has beyond the
deduplicator's. -/
def isCjkExtraRange (c : Char) : Bool :=
  (0x3400 ≤ c.val && c.val ≤ 0x4dbf) || (0xf900 ≤ c.val && c.val ≤ 0xfaff)

/-- Unicode general categories P (punctuation) and S (symbol), as
matched by the source regex `[\p{P}\p{S}]`, tabulated over the blocks
this pipeline's texts draw from: Basic Latin, Latin-1 Supplement,
General Punctuation, CJK Symbols and Punctuation, and the fullwidth
forms.  Characters of other blocks are neither P nor S here. -/
def isPunctOrSymbol (c : Char) : Bool :=
  let v := c.val
  -- Basic Latin: every printable non-alphanumeric ASCII character is P or S
  (0x21 ≤ v && v ≤ 0x2f) || (0x3a ≤ v && v ≤ 0x40) ||
  (0x5b ≤ v && v ≤ 0x60) || (0x7b ≤ v && v ≤ 0x7e) ||
  -- Latin-1 Supplement (¡ ¢ £ ¤ ¥ ¦ § ¨ © « ¬ ® ¯ ° ± ´ ¶ · ¸ » ¿ × ÷)
  (0xa1 ≤ v && v ≤ 0xa9) || v == 0xab || v == 0xac ||
  (0xae ≤ v && v ≤ 0xb1) || v == 0xb4 || (0xb6 ≤ v && v ≤ 0xb8) ||
  v == 0xbb || v == 0xbf || v == 0xd7 || v == 0xf7 ||
  -- General Punctuation (dashes, quotes, daggers, permille, fraction slash …)
  (0x2010 ≤ v && v ≤ 0x2027) || (0x2030 ≤ v && v ≤ 0x205e) ||
  -- CJK Symbols and Punctuation (、 。 〃 〈…〗 〜 〰 ※ etc.)
  (0x3001 ≤ v && v ≤ 0x3003) || (0x3008 ≤ v && v ≤ 0x3011) ||
  (0x3014 ≤ v && v ≤ 0x301f) || v == 0x3030 || v == 0x303d ||
  -- Fullwidth forms (！ ＂ ＃ ＄ … ： ； ＜ ＝ ＞ ？ ＠ … ｛ ｜ ｝ ～)
  (0xff01 ≤ v && v ≤ 0xff0f) || (0xff1a ≤ v && v ≤ 0xff20) ||
  (0xff3b ≤ v && v ≤ 0xff40) || (0xff5b ≤ v && v ≤ 0xff65)

/-- The stripped class of `needsTranslation`: regex `[\s\d\p{P}\p{S}]`
with the `u` flag. -/
def isStrippedChar (c : Char) : Bool :=
  isJsWhitespace c || isAsciiDigit c || isPunctOrSymbol c

/-- JavaScript `toLowerCase`, character-wise, for the characters this
pipeline meets: A–Z map to a–z, everything else is unchanged (no other
character that titles contain lowercases into the ASCII range `[a-z]`
that the word regex then matches). -/
def jsToLowerChar (c : Char) : Char :=
  if 0x41 ≤ c.val ∧ c.val ≤ 0x5a then Char.ofNat (c.val.toNat + 0x20) else c

/-- Lowercase ASCII letter, the class of regex `[a-z]`. -/
def isLowerAZ (c : Char) : Bool :=
  0x61 ≤ c.val && c.val ≤ 0x7a

/-- Maximal runs of `[a-z]` characters, accumulating the current run in
reverse in `acc`; models the global matches of `/[a-z]{3,}/g` before
the length-3 filter. -/
def lowerRunsAux (acc : List Char) : List Char → List (List Char)
  | [] => if acc.isEmpty then [] else [acc.reverse]
  | c :: cs =>
    if isLowerAZ c then lowerRunsAux (c :: acc) cs
    else if acc.isEmpty then lowerRunsAux [] cs
    else acc.reverse :: lowerRunsAux [] cs

/-- `TitleDeduplicator.extractTokens`: every CJK ideograph of the title
(as a one-character string) plus every maximal run of ≥ 3 lowercase
ASCII letters of the lowercased title. -/
def extractTokens (title : String) : Finset String :=
  let cjk := (title.data.filter isCjkDedup).map (fun c => String.mk [c])
  let lowered := title.data.map jsToLowerChar
  let words := ((lowerRunsAux [] lowered).filter (fun r => r.length ≥ 3)).map
    (fun r => String.mk r)
  cjk.toFinset ∪ words.toFinset

/-- `TitleDeduplicator.jaccard`: 0 when either set is empty, otherwise
`|a ∩ b| / (|a| + |b| - |a ∩ b|)` (the loop over `a` testing membership
in `b` counts exactly `|a ∩ b|`). -/
def jaccard (a b : Finset String) : ℚ :=
  if a.card = 0 ∨ b.card = 0 then 0
  else ((a ∩ b).card : ℚ) / ((a.card : ℚ) + (b.card : ℚ) - ((a ∩ b).card : ℚ))

/-- GitHub-specific extra fields of a news item (`sources/types.ts`). -/
structure GithubExtra where
  stars : Option Nat
  todayStars : Option Nat
  description : Option String
  language : Option String
deriving DecidableEq, Repr

/-- A news item (`sources/types.ts`); `pubDate` is the parsed
publication instant in milliseconds since the epoch when present. -/
structure NewsItem where
  title : String
  link : String
  source : String
  pubDate : Option Int
  extra : Option GithubExtra
deriving DecidableEq, Repr

/-- One entry of the deduplicator's `seen` state: the token set and the
link of an accepted item. -/
structure DedupRecord where
  chars : Finset String
  link : String
deriving DecidableEq

namespace TitleDeduplicator

/-- `TitleDeduplicator.filter`, with the instance state `seen` passed
explicitly: link-duplicate check first, then the Jaccard similarity
check against every accepted record; accepted items are pushed to both
the result and the state. Returns (result, final seen state). -/
def filterGo (threshold : ℚ) (seen : List DedupRecord) :
    List NewsItem → List NewsItem × List DedupRecord
  | [] => ([], seen)
  | item :: rest =>
    if seen.any (fun s => s.link == item.link) then
      filterGo threshold seen rest
    else
      let tokens := extractTokens item.title
      if seen.any (fun s => decide (jaccard s.chars tokens ≥ threshold)) then
        filterGo threshold seen rest
      else
        let next := filterGo threshold (seen ++ [⟨tokens, item.link⟩]) rest
        (item :: next.1, next.2)

end TitleDeduplicator

/-- The deduplication policy exactly as the specification words it: an
item is dropped iff its link equals the link of a previously accepted
item or its title's token set has Jaccard similarity ≥ threshold with
some previously accepted item's token set; accepted records are
appended in arrival order, so the first-seen item wins. -/
def dedupSpec (threshold : ℚ) (accepted : List DedupRecord) :
    List NewsItem → List NewsItem
  | [] => []
  | item :: rest =>
    if (∃ r ∈ accepted, r.link = item.link) ∨
       (∃ r ∈ accepted, jaccard r.chars (extractTokens item.title) ≥ threshold) then
      dedupSpec threshold accepted rest
    else
      item :: dedupSpec threshold
        (accepted ++ [⟨extractTokens item.title, item.link⟩]) rest

lemma any_link_eq_true (seen : List DedupRecord) (item : NewsItem) :
    ((seen.any fun s => s.link == item.link) = true) ↔
      ∃ r ∈ seen, r.link = item.link := by
  simp [List.any_eq_true]

lemma any_jaccard_eq_true (seen : List DedupRecord) (t : Finset String) (θ : ℚ) :
    ((seen.any fun s => decide (jaccard s.chars t ≥ θ)) = true) ↔
      ∃ r ∈ seen, jaccard r.chars t ≥ θ := by
  simp [List.any_eq_true]

lemma filterGo_eq_spec (threshold : ℚ) :
    ∀ (items : List NewsItem) (seen : List DedupRecord),
    (TitleDeduplicator.filterGo threshold seen items).1 =
        dedupSpec threshold seen items ∧
    (TitleDeduplicator.filterGo threshold seen items).2 =
      seen ++ ((TitleDeduplicator.filterGo threshold seen items).1).map
        (fun it => DedupRecord.mk (extractTokens it.title) it.link) := by
  intro items
  induction items with
  | nil =>
    intro seen
    simp [TitleDeduplicator.filterGo, dedupSpec]
  | cons item rest ih =>
    intro seen
    by_cases h1 : ∃ r ∈ seen, r.link = item.link
    · have hb : (seen.any fun s => s.link == item.link) = true :=
        (any_link_eq_true seen item).mpr h1
      rw [TitleDeduplicator.filterGo, dedupSpec]
      rw [if_pos hb, if_pos (Or.inl h1)]
      exact ih seen
    · have hb : (seen.any fun s => s.link == item.link) = false := by
        rw [Bool.eq_false_iff]
        intro hc
        exact h1 ((any_link_eq_true seen item).mp hc)
      by_cases h2 : ∃ r ∈ seen,
          jaccard r.chars (extractTokens item.title) ≥ threshold
      · have hb2 : (seen.any fun s =>
            decide (jaccard s.chars (extractTokens item.title) ≥ threshold)) = true :=
          (any_jaccard_eq_true seen (extractTokens item.title) threshold).mpr h2
        rw [TitleDeduplicator.filterGo, dedupSpec]
        rw [hb]
        simp only [Bool.false_eq_true, if_false]
        rw [if_pos hb2, if_pos (Or.inr h2)]
        exact ih seen
      · have hb2 : (seen.any fun s =>
            decide (jaccard s.chars (extractTokens item.title) ≥ threshold)) = false := by
          rw [Bool.eq_false_iff]
          intro hc
          exact h2 ((any_jaccard_eq_true seen (extractTokens item.title) threshold).mp hc)
        have hcond : ¬ ((∃ r ∈ seen, r.link = item.link) ∨
            (∃ r ∈ seen, jaccard r.chars (extractTokens item.title) ≥ threshold)) := by
          rintro (h | h)
          · exact h1 h
          · exact h2 h
        rw [TitleDeduplicator.filterGo, dedupSpec]
        simp only [hb, hb2, Bool.false_eq_true, if_false, if_neg hcond]
        obtain ⟨ihl, ihr⟩ :=
          ih (seen ++ [DedupRecord.mk (extractTokens item.title) item.link])
        refine ⟨?_, ?_⟩
        · show item :: (TitleDeduplicator.filterGo threshold
              (seen ++ [DedupRecord.mk (extractTokens item.title) item.link]) rest).1 =
            item :: dedupSpec threshold
              (seen ++ [DedupRecord.mk (extractTokens item.title) item.link]) rest
          rw [ihl]
        · show (TitleDeduplicator.filterGo threshold
              (seen ++ [DedupRecord.mk (extractTokens item.title) item.link]) rest).2 =
            seen ++ (item :: (TitleDeduplicator.filterGo threshold
              (seen ++ [DedupRecord.mk (extractTokens item.title) item.link]) rest).1).map
              (fun it => DedupRecord.mk (extractTokens it.title) it.link)
          rw [ihr]
          simp

/-- C1: items passed through one category's `TitleDeduplicator` with
threshold 0.5 are dropped exactly when their link equals a previously
accepted item's link or their title's token set is Jaccard-similar
(≥ 0.5) to a previously accepted one; accepted records are appended to
the state in arrival order, so the first-seen item wins. -/
theorem dedup_filter_matches_spec (items : List NewsItem) (seen : List DedupRecord) :
    (TitleDeduplicator.filterGo (1/2) seen items).1 = dedupSpec (1/2) seen items ∧
    (TitleDeduplicator.filterGo (1/2) seen items).2 =
      seen ++ ((TitleDeduplicator.filterGo (1/2) seen items).1).map
        (fun it => DedupRecord.mk (extractTokens it.title) it.link) :=
  filterGo_eq_spec (1/2) items seen

/-- C6: the deduplicator's Jaccard similarity is 1 on identical
non-empty sets, 0 on disjoint non-empty sets, and 0 whenever either
side is empty (including both empty). -/
theorem jaccard_algebra :
    (∀ S : Finset String, S.Nonempty → jaccard S S = 1) ∧
    (∀ A B : Finset String, A.Nonempty → B.Nonempty → Disjoint A B →
      jaccard A B = 0) ∧
    (∀ S : Finset String, jaccard S ∅ = 0 ∧ jaccard ∅ S = 0) := by
  refine ⟨?_, ?_, ?_⟩
  · intro S hS
    have hc : S.card ≠ 0 := Nat.pos_iff_ne_zero.mp hS.card_pos
    rw [jaccard, if_neg (by simp [hc])]
    rw [Finset.inter_self]
    have hq : (S.card : ℚ) ≠ 0 := by exact_mod_cast hc
    field_simp
  · intro A B hA hB hd
    have hi : A ∩ B = ∅ := Finset.disjoint_iff_inter_eq_empty.mp hd
    rw [jaccard,
      if_neg (by simp [Nat.pos_iff_ne_zero.mp hA.card_pos,
        Nat.pos_iff_ne_zero.mp hB.card_pos])]
    simp [hi]
  · intro S
    constructor <;> simp [jaccard]

/-- Witness for C6 at concrete sets. -/
theorem jaccard_algebra_witness :
    jaccard {"a"} {"a"} = 1 ∧ jaccard {"a"} {"b"} = 0 ∧ jaccard {"a"} ∅ = 0 :=
  ⟨jaccard_algebra.1 {"a"} ⟨"a", by simp⟩,
   jaccard_algebra.2.1 {"a"} {"b"} ⟨"a", by simp⟩ ⟨"b", by simp⟩ (by simp),
   (jaccard_algebra.2.2 {"a"}).1⟩

/-- C7 counterexample: U+3400 (the first CJK Extension A ideograph) is
classified CJK by the translator's ranges but not by the deduplicator's
tokenizer range, so the two classifiers are not the same. -/
theorem cjk_ranges_differ :
    isCjkTranslator (Char.ofNat 0x3400) = true ∧
    isCjkDedup (Char.ofNat 0x3400) = false := by
  decide

/-- C7 amended: the translator's CJK class is the deduplicator's class
extended by exactly the ranges U+3400–U+4DBF and U+F900–U+FAFF; in
particular every character the deduplicator treats as CJK is also CJK
for the translator, but not conversely. -/
theorem cjk_translator_extends_dedup (c : Char) :
    isCjkTranslator c = (isCjkDedup c || isCjkExtraRange c) := by
  rw [isCjkTranslator, isCjkDedup, isCjkExtraRange]
  cases h1 : (0x4e00 ≤ c.val && c.val ≤ 0x9fff) <;>
    cases h2 : (0x3400 ≤ c.val && c.val ≤ 0x4dbf) <;>
      cases h3 : (0xf900 ≤ c.val && c.val ≤ 0xfaff) <;> simp [h1, h2, h3]

/-- Matches of the translator's CJK regex in a text (`cjkMatches.length`;
every matched character is in the BMP, so one match per character). -/
def cjkCount (text : String) : Nat :=
  (text.data.filter isCjkTranslator).length

/-- `text.replace(/[\s\d\p{P}\p{S}]/gu, '').length`: the UTF-16 length
of the text with whitespace, ASCII digits, punctuation and symbols
removed. -/
def meaningfulChars (text : String) : Nat :=
  ((text.data.filter (fun c => !isStrippedChar c)).map utf16Len).sum

/-- `needsTranslation` (`translator.ts`): no translation when nothing
meaningful remains, otherwise translate iff the CJK share of the
meaningful characters is below 30%. -/
def needsTranslation (text : String) : Bool :=
  if meaningfulChars text = 0 then false
  else decide ((cjkCount text : ℚ) / (meaningfulChars text : ℚ) < 3/10)

/-- The rational comparison of `needsTranslation` in integer form, for
evaluation on concrete inputs. -/
lemma needsTranslation_eq_nat (text : String) :
    needsTranslation text =
      (decide (meaningfulChars text ≠ 0) &&
       decide (10 * cjkCount text < 3 * meaningfulChars text)) := by
  rw [needsTranslation]
  by_cases h : meaningfulChars text = 0
  · simp [h]
  · have hm : (0 : ℚ) < (meaningfulChars text : ℚ) := by
      exact_mod_cast Nat.pos_of_ne_zero h
    rw [if_neg h]
    have hiff : ((cjkCount text : ℚ) / (meaningfulChars text : ℚ) < 3/10) ↔
        (10 * cjkCount text < 3 * meaningfulChars text) := by
      rw [div_lt_div_iff₀ hm (by norm_num : (0:ℚ) < 10)]
      constructor
      · intro hlt
        have : (10 * cjkCount text : ℚ) < (3 * meaningfulChars text : ℚ) := by
          linarith
        exact_mod_cast this
      · intro hlt
        have : (10 * cjkCount text : ℚ) < (3 * meaningfulChars text : ℚ) := by
          exact_mod_cast hlt
        push_cast at this
        linarith
    simp [h, decide_eq_decide.mpr hiff]

/-- Per-invocation state of `translateTitles`, together with the count
of `translateText` provider calls made so far (observable effect). -/
structure TransState where
  results : List NewsItem
  translatedCount : Nat
  consecutiveFailures : Nat
  aborted : Bool
  calls : Nat
deriving DecidableEq, Repr

/-- The fresh state at the start of every `translateTitles` call. -/
def initTransState : TransState :=
  { results := [], translatedCount := 0, consecutiveFailures := 0,
    aborted := false, calls := 0 }

/-- The circuit-breaker check run at the bottom of each non-`continue`
loop iteration: at ≥ 2 consecutive failures, abandon the rest. -/
def checkBreaker (st : TransState) : TransState :=
  if st.consecutiveFailures ≥ 2 then { st with aborted := true } else st

/-- The replacement item when a title translation succeeds:
`"{original}（{translated}）"`. -/
def wrapTitle (item : NewsItem) (t : String) : NewsItem :=
  { item with title := item.title ++ "（" ++ t ++ "）" }

/-- The replacement item when a GitHub description translation
succeeds: the description becomes `"{original}（{translated}）"`. -/
def wrapDescription (item : NewsItem) (e : GithubExtra) (d t : String) : NewsItem :=
  { item with extra := some { e with description := some (d ++ "（" ++ t ++ "）") } }

/-- One iteration of the `translateTitles` loop. `oracle n` is the
result of the (n+1)-th `translateText` call of this invocation (`none`
when both providers failed); `translateText` catches all provider
errors itself, so the loop's own catch branch is unreachable and the
step is total.  A successful, text-changing translation ends in
`continue`, skipping the breaker check; every other path runs it. -/
def transStep (isGithub : Bool) (oracle : Nat → Option String)
    (st : TransState) (item : NewsItem) : TransState :=
  if st.aborted then
    { st with results := st.results ++ [item] }
  else if isGithub then
    match item.extra with
    | some e =>
      match e.description with
      | some d =>
        if d ≠ "" ∧ needsTranslation d then
          match oracle st.calls with
          | some t =>
            if t ≠ "" ∧ t ≠ d then
              { st with results := st.results ++ [wrapDescription item e d t],
                        translatedCount := st.translatedCount + 1,
                        consecutiveFailures := 0,
                        calls := st.calls + 1 }
            else
              checkBreaker { st with results := st.results ++ [item],
                                     calls := st.calls + 1 }
          | none =>
            checkBreaker { st with results := st.results ++ [item],
                                   consecutiveFailures := st.consecutiveFailures + 1,
                                   calls := st.calls + 1 }
        else checkBreaker { st with results := st.results ++ [item] }
      | none => checkBreaker { st with results := st.results ++ [item] }
    | none => checkBreaker { st with results := st.results ++ [item] }
  else
    if needsTranslation item.title then
      match oracle st.calls with
      | some t =>
        if t ≠ "" ∧ t ≠ item.title then
          { st with results := st.results ++ [wrapTitle item t],
                    translatedCount := st.translatedCount + 1,
                    consecutiveFailures := 0,
                    calls := st.calls + 1 }
        else
          checkBreaker { st with results := st.results ++ [item],
                                 calls := st.calls + 1 }
      | none =>
        checkBreaker { st with results := st.results ++ [item],
                               consecutiveFailures := st.consecutiveFailures + 1,
                               calls := st.calls + 1 }
    else checkBreaker { st with results := st.results ++ [item] }

/-- The `translateTitles` loop folded over a batch from a given state. -/
def translateRun (isGithub : Bool) (oracle : Nat → Option String)
    (items : List NewsItem) (st : TransState) : TransState :=
  items.foldl (transStep isGithub oracle) st

/-- `translateTitles` (`translator.ts`): the returned item list. -/
def translateTitles (items : List NewsItem) (isGithub : Bool)
    (oracle : Nat → Option String) : List NewsItem :=
  (translateRun isGithub oracle items initTransState).results

/-- How one output item of `translateTitles` may relate to its input
item: unchanged, or (for a non-empty translated text) the title — or,
for the GitHub category, the extra description — wrapped as
`"{original}（{translated}）"`; the link is unchanged either way. -/
def translatedForm (isGithub : Bool) (a b : NewsItem) : Prop :=
  (b = a ∨ ∃ t, t ≠ "" ∧
    (if isGithub then
      ∃ e d, a.extra = some e ∧ e.description = some d ∧ b = wrapDescription a e d t
     else b = wrapTitle a t)) ∧ b.link = a.link

lemma checkBreaker_results (st : TransState) :
    (checkBreaker st).results = st.results := by
  unfold checkBreaker
  split <;> rfl

lemma transStep_aborted (g : Bool) (o : Nat → Option String)
    (st : TransState) (item : NewsItem) (h : st.aborted = true) :
    transStep g o st item = { st with results := st.results ++ [item] } := by
  unfold transStep
  rw [if_pos h]

lemma transStep_pushes_one (g : Bool) (o : Nat → Option String)
    (st : TransState) (item : NewsItem) :
    ∃ b, (transStep g o st item).results = st.results ++ [b] ∧
      translatedForm g item b := by
  unfold transStep
  split
  · exact ⟨item, rfl, Or.inl rfl, rfl⟩
  · split
    case isTrue hg =>
      split
      case h_1 e heq =>
        split
        case h_1 d heqd =>
          split
          case isTrue hneed =>
            split
            case h_1 t ho =>
              split
              case isTrue ht =>
                refine ⟨wrapDescription item e d t, rfl, Or.inr ⟨t, ht.1, ?_⟩, rfl⟩
                rw [if_pos hg]
                exact ⟨e, d, heq, heqd, rfl⟩
              case isFalse ht =>
                exact ⟨item, checkBreaker_results _, Or.inl rfl, rfl⟩
            case h_2 ho =>
              exact ⟨item, checkBreaker_results _, Or.inl rfl, rfl⟩
          case isFalse hneed =>
            exact ⟨item, checkBreaker_results _, Or.inl rfl, rfl⟩
        case h_2 heqd =>
          exact ⟨item, checkBreaker_results _, Or.inl rfl, rfl⟩
      case h_2 heq =>
        exact ⟨item, checkBreaker_results _, Or.inl rfl, rfl⟩
    case isFalse hg =>
      split
      case isTrue hneed =>
        split
        case h_1 t ho =>
          split
          case isTrue ht =>
            refine ⟨wrapTitle item t, rfl, Or.inr ⟨t, ht.1, ?_⟩, rfl⟩
            rw [if_neg hg]
          case isFalse ht =>
            exact ⟨item, checkBreaker_results _, Or.inl rfl, rfl⟩
        case h_2 ho =>
          exact ⟨item, checkBreaker_results _, Or.inl rfl, rfl⟩
      case isFalse hneed =>
        exact ⟨item, checkBreaker_results _, Or.inl rfl, rfl⟩

lemma translateRun_results (g : Bool) (o : Nat → Option String) :
    ∀ (items : List NewsItem) (st : TransState),
    ∃ delta, (translateRun g o items st).results = st.results ++ delta ∧
      List.Forall₂ (translatedForm g) items delta := by
  intro items
  induction items with
  | nil =>
    intro st
    exact ⟨[], by simp [translateRun], List.Forall₂.nil⟩
  | cons item rest ih =>
    intro st
    obtain ⟨b, hb, hf⟩ := transStep_pushes_one g o st item
    obtain ⟨delta, hd, hfd⟩ := ih (transStep g o st item)
    refine ⟨b :: delta, ?_, List.Forall₂.cons hf hfd⟩
    have : translateRun g o (item :: rest) st =
        translateRun g o rest (transStep g o st item) := by
      rw [translateRun, translateRun, List.foldl_cons]
    rw [this, hd, hb]
    simp

/-- C3: `translateTitles` is total and returns exactly one output item
per input item, each either unchanged or with its title (for the GitHub
category, its extra description) wrapped as
`"{original}（{translated}）"`, and never changes any item's link. -/
theorem translate_titles_shape (items : List NewsItem) (isGithub : Bool)
    (oracle : Nat → Option String) :
    (translateTitles items isGithub oracle).length = items.length ∧
    List.Forall₂ (translatedForm isGithub) items
      (translateTitles items isGithub oracle) := by
  obtain ⟨delta, hd, hf⟩ := translateRun_results isGithub oracle items initTransState
  have hr : translateTitles items isGithub oracle = delta := by
    rw [translateTitles, hd]
    simp [initTransState]
  rw [hr]
  exact ⟨hf.length_eq.symm, hf⟩

lemma translateRun_aborted_absorb (g : Bool) (o : Nat → Option String) :
    ∀ (ys : List NewsItem) (st : TransState), st.aborted = true →
    translateRun g o ys st = { st with results := st.results ++ ys } := by
  intro ys
  induction ys with
  | nil =>
    intro st h
    simp [translateRun]
  | cons y ys ih =>
    intro st h
    have hstep : translateRun g o (y :: ys) st =
        translateRun g o ys (transStep g o st y) := by
      rw [translateRun, translateRun, List.foldl_cons]
    rw [hstep, transStep_aborted g o st y h, ih _ (by exact h)]
    simp

lemma checkBreaker_inv (st : TransState) :
    (checkBreaker st).consecutiveFailures ≥ 2 → (checkBreaker st).aborted = true := by
  unfold checkBreaker
  split
  case isTrue => intro _; rfl
  case isFalse hlt => intro h; exact absurd h hlt

lemma transStep_inv (g : Bool) (o : Nat → Option String)
    (st : TransState) (item : NewsItem) :
    (transStep g o st item).consecutiveFailures ≥ 2 →
      (transStep g o st item).aborted = true := by
  unfold transStep
  split
  case isTrue h =>
    intro _
    exact h
  case isFalse h =>
    split
    · split
      case h_1 e =>
        split
        case h_1 d =>
          split
          · split
            case h_1 t =>
              split
              · intro hc
                simp at hc
              · exact checkBreaker_inv _
            case h_2 => exact checkBreaker_inv _
          · exact checkBreaker_inv _
        case h_2 => exact checkBreaker_inv _
      case h_2 => exact checkBreaker_inv _
    · split
      · split
        case h_1 t =>
          split
          · intro hc
            simp at hc
          · exact checkBreaker_inv _
        case h_2 => exact checkBreaker_inv _
      · exact checkBreaker_inv _

lemma translateRun_inv (g : Bool) (o : Nat → Option String) :
    ∀ (items : List NewsItem) (st : TransState),
    (st.consecutiveFailures ≥ 2 → st.aborted = true) →
    ((translateRun g o items st).consecutiveFailures ≥ 2 →
      (translateRun g o items st).aborted = true) := by
  intro items
  induction items with
  | nil =>
    intro st h
    simpa [translateRun] using h
  | cons item rest ih =>
    intro st h
    have hstep : translateRun g o (item :: rest) st =
        translateRun g o rest (transStep g o st item) := by
      rw [translateRun, translateRun, List.foldl_cons]
    rw [hstep]
    exact ih _ (transStep_inv g o st item)

/-- C2: the consecutive-failure circuit breaker of `translateTitles`.
(1) Once a prefix of the batch has driven the state to `aborted`, every
remaining item is passed through unchanged and the provider-call count
stops. (2) The state aborts whenever the consecutive-failure counter
(incremented exactly when both providers yield nothing) reaches 2.
(3)/(4) A successful, text-changing translation resets the counter to
zero (plain and GitHub branches). -/
theorem translate_circuit_breaker :
    (∀ (isGithub : Bool) (oracle : Nat → Option String) (xs ys : List NewsItem),
      (translateRun isGithub oracle xs initTransState).aborted = true →
      (translateRun isGithub oracle (xs ++ ys) initTransState).results =
        (translateRun isGithub oracle xs initTransState).results ++ ys ∧
      (translateRun isGithub oracle (xs ++ ys) initTransState).calls =
        (translateRun isGithub oracle xs initTransState).calls) ∧
    (∀ (isGithub : Bool) (oracle : Nat → Option String) (xs : List NewsItem),
      (translateRun isGithub oracle xs initTransState).consecutiveFailures ≥ 2 →
      (translateRun isGithub oracle xs initTransState).aborted = true) ∧
    (∀ (oracle : Nat → Option String) (st : TransState) (item : NewsItem) (t : String),
      st.aborted = false → needsTranslation item.title = true →
      oracle st.calls = some t → t ≠ "" → t ≠ item.title →
      (transStep false oracle st item).consecutiveFailures = 0) ∧
    (∀ (oracle : Nat → Option String) (st : TransState) (item : NewsItem)
        (e : GithubExtra) (d t : String),
      st.aborted = false → item.extra = some e → e.description = some d →
      d ≠ "" → needsTranslation d = true →
      oracle st.calls = some t → t ≠ "" → t ≠ d →
      (transStep true oracle st item).consecutiveFailures = 0) := by
  refine ⟨?_, ?_, ?_, ?_⟩
  · intro g o xs ys h
    have hsplit : translateRun g o (xs ++ ys) initTransState =
        translateRun g o ys (translateRun g o xs initTransState) := by
      rw [translateRun, translateRun, translateRun, List.foldl_append]
    rw [hsplit, translateRun_aborted_absorb g o ys _ h]
    exact ⟨rfl, rfl⟩
  · intro g o xs
    exact translateRun_inv g o xs initTransState (by intro h; simp [initTransState] at h)
  · intro o st item t ha hn ho ht1 ht2
    simp [transStep, ha, hn, ho, ht1, ht2]
  · intro o st item e d t ha he hd hd1 hn ho ht1 ht2
    simp [transStep, ha, he, hd, hd1, hn, ho, ht1, ht2]

/-- Witness for C2: with both providers failing every time, two items
needing translation trip the breaker; a third item then passes through
unchanged with no further provider call, and a successful translation
resets the failure counter. -/
theorem translate_circuit_breaker_witness :
    (translateRun false (fun _ => none)
      [⟨"hello world", "l1", "s", none, none⟩,
       ⟨"foo bar baz", "l2", "s", none, none⟩] initTransState).aborted = true ∧
    (translateRun false (fun _ => none)
      ([⟨"hello world", "l1", "s", none, none⟩,
        ⟨"foo bar baz", "l2", "s", none, none⟩] ++
       [⟨"alpha beta", "l3", "s", none, none⟩]) initTransState).results =
      (translateRun false (fun _ => none)
        [⟨"hello world", "l1", "s", none, none⟩,
         ⟨"foo bar baz", "l2", "s", none, none⟩] initTransState).results ++
      [⟨"alpha beta", "l3", "s", none, none⟩] ∧
    (translateRun false (fun _ => none)
      ([⟨"hello world", "l1", "s", none, none⟩,
        ⟨"foo bar baz", "l2", "s", none, none⟩] ++
       [⟨"alpha beta", "l3", "s", none, none⟩]) initTransState).calls =
      (translateRun false (fun _ => none)
        [⟨"hello world", "l1", "s", none, none⟩,
         ⟨"foo bar baz", "l2", "s", none, none⟩] initTransState).calls ∧
    (transStep false (fun _ => some "你好") initTransState
      ⟨"hello world", "l1", "s", none, none⟩).consecutiveFailures = 0 := by
  have h1 : needsTranslation "hello world" = true := by
    rw [needsTranslation_eq_nat]
    decide
  have h2 : needsTranslation "foo bar baz" = true := by
    rw [needsTranslation_eq_nat]
    decide
  have hab : (translateRun false (fun _ => none)
      [⟨"hello world", "l1", "s", none, none⟩,
       ⟨"foo bar baz", "l2", "s", none, none⟩] initTransState).aborted = true := by
    simp [translateRun, transStep, initTransState, h1, h2, checkBreaker]
  obtain ⟨hr, hc⟩ := translate_circuit_breaker.1 false (fun _ => none)
    [⟨"hello world", "l1", "s", none, none⟩,
     ⟨"foo bar baz", "l2", "s", none, none⟩]
    [⟨"alpha beta", "l3", "s", none, none⟩] hab
  refine ⟨hab, hr, hc, ?_⟩
  exact translate_circuit_breaker.2.2.1 (fun _ => some "你好") initTransState
    ⟨"hello world", "l1", "s", none, none⟩ "你好" rfl h1 rfl
    (by decide) (by decide)

/-- C5: `needsTranslation` is false exactly when no meaningful
character remains after stripping whitespace, digits, punctuation and
symbols, and otherwise is true exactly when the CJK share of the
meaningful characters is < 0.3; and the three reference examples. -/
theorem needs_translation_spec :
    (∀ text : String, needsTranslation text =
      (decide (meaningfulChars text ≠ 0) &&
       decide ((cjkCount text : ℚ) / (meaningfulChars text : ℚ) < 3/10))) ∧
    needsTranslation "OpenAI releases GPT-5 model update" = true ∧
    needsTranslation "中国人工智能产业规模破万亿" = false ∧
    needsTranslation "123 !!! ..." = false := by
  refine ⟨?_, ?_, ?_, ?_⟩
  · intro text
    rw [needsTranslation]
    by_cases h : meaningfulChars text = 0
    · simp [h]
    · simp [h]
  · rw [needsTranslation_eq_nat]
    decide
  · rw [needsTranslation_eq_nat]
    decide
  · rw [needsTranslation_eq_nat]
    decide

/-- The calendar fields `Intl.DateTimeFormat` extracts for the
configured timezone in `formatTime` (`formatter.ts`): the embedding
takes them as the run's input instead of reading a wall clock. -/
structure Time where
  year : Nat
  month : Nat
  day : Nat
  hour : Nat
  minute : Nat
deriving DecidableEq, Repr

/-- Two-digit zero padding, as `Intl`'s `2-digit` fields render. -/
def pad2 (n : Nat) : String :=
  if n < 10 then "0" ++ toString n else toString n

/-- `formatTime`: `YYYY-MM-DD HH:mm`. -/
def formatTime (t : Time) : String :=
  toString t.year ++ "-" ++ pad2 t.month ++ "-" ++ pad2 t.day ++ " " ++
    pad2 t.hour ++ ":" ++ pad2 t.minute

/-- The footer appended to every assembled message:
`"\n\n> 更新时间：" + formatTime(...)`. -/
def footerString (t : Time) : String :=
  "\n\n> 更新时间：" ++ formatTime t

/-- A source's contribution to a category (`formatter.ts`). -/
structure SourceGroup where
  name : String
  items : List NewsItem
deriving DecidableEq, Repr

/-- `formatSourceSection`: `"### name"`, a blank line, then one
`"{i}. [{title}]({link})"` line per item. -/
def formatSourceSection (group : SourceGroup) : String :=
  String.intercalate "\n"
    (["### " ++ group.name, ""] ++
     group.items.enum.map (fun p =>
       toString (p.1 + 1) ++ ". [" ++ p.2.title ++ "](" ++ p.2.link ++ ")"))

/-- The message header: `"## name"` for the first message (batch 0),
`"## name（续）"` for every continuation. -/
def messageHeader (categoryName : String) (batchIndex : Nat) : String :=
  if batchIndex = 0 then "## " ++ categoryName
  else "## " ++ categoryName ++ "（续）"

/-- The loop of `formatNewsMessages` (char-budget version,
`formatter.ts`): state is (accumulated messages, batch index, sections
of the current message, running character total). -/
def fnmLoop (categoryName footer : String) (maxPer : Nat) (maxChars : Int) :
    List SourceGroup → List String → Nat → List String → Int → List String
  | [], messages, batchIndex, currentSections, _ =>
    if currentSections.isEmpty then messages
    else messages ++ [messageHeader categoryName batchIndex ++ "\n" ++
      String.intercalate "\n\n" currentSections ++ footer]
  | group :: rest, messages, batchIndex, currentSections, currentLength =>
    let sec := formatSourceSection group
    let wouldExceedChars := !currentSections.isEmpty &&
      decide (currentLength + (jsLength sec : Int) + 2 >
        maxChars - (jsLength footer : Int) - 30)
    let wouldExceedCount := decide (currentSections.length ≥ maxPer)
    if !currentSections.isEmpty && (wouldExceedChars || wouldExceedCount) then
      fnmLoop categoryName footer maxPer maxChars rest
        (messages ++ [messageHeader categoryName batchIndex ++ "\n" ++
          String.intercalate "\n\n" currentSections ++ footer])
        (batchIndex + 1) [sec] ((jsLength sec : Int) + 2)
    else
      fnmLoop categoryName footer maxPer maxChars rest messages batchIndex
        (currentSections ++ [sec]) (currentLength + (jsLength sec : Int) + 2)

/-- `formatNewsMessages` (`formatter.ts`, the splitting version with
both the sections-per-message and the character budget): groups with no
items are discarded; with nothing left a single no-data message is
returned; otherwise sections are accumulated greedily. -/
def formatNewsMessages (time : Time) (categoryName : String)
    (groups : List SourceGroup) (maxSourcesPerMsg : Nat) (maxChars : Int) :
    List String :=
  let nonEmpty := groups.filter (fun g => !g.items.isEmpty)
  if nonEmpty.isEmpty then ["## " ++ categoryName ++ "\n\n暂无新闻数据。"]
  else
    fnmLoop categoryName (footerString time) maxSourcesPerMsg maxChars
      nonEmpty [] 0 [] 0

/-- The running character total a list of accumulated sections
contributes: each section's UTF-16 length plus 2 for its `"\n\n"`
separator, exactly as `currentLength` accumulates it. -/
def sectionWeight (secs : List String) : Int :=
  (secs.map (fun s => (jsLength s : Int) + 2)).sum

/-- The split condition of the claim: the current message already holds
`maxPer` sections, or adding the next section would push the running
total past the budget (`maxChars - footer length - 30`). -/
def forcesSplit (maxPer : Nat) (budget : Int) (cur : List String) (s : String) : Bool :=
  decide (cur.length ≥ maxPer) ||
  decide (sectionWeight cur + (jsLength s : Int) + 2 > budget)

/-- Greedy grouping of the rendered sections into messages, stated at
the section level: a chunk is closed exactly when the next section
forces a split. -/
def chunkLoop (maxPer : Nat) (budget : Int) (cur : List String) :
    List String → List (List String)
  | [] => [cur]
  | s :: rest =>
    if forcesSplit maxPer budget cur s then
      cur :: chunkLoop maxPer budget [s] rest
    else chunkLoop maxPer budget (cur ++ [s]) rest

/-- The chunking of a whole section list. -/
def chunkSections (maxPer : Nat) (budget : Int) : List String → List (List String)
  | [] => []
  | s :: rest => chunkLoop maxPer budget [s] rest

/-- Renders chunks to messages: header (first or continuation), the
sections joined by blank lines, then the footer. -/
def renderChunks (categoryName footer : String) :
    Nat → List (List String) → List String
  | _, [] => []
  | bIdx, c :: rest =>
    (messageHeader categoryName bIdx ++ "\n" ++
      String.intercalate "\n\n" c ++ footer) :: renderChunks categoryName footer (bIdx + 1) rest

/-- The non-empty sections a group list renders to. -/
def sectionsOf (groups : List SourceGroup) : List String :=
  (groups.filter (fun g => !g.items.isEmpty)).map formatSourceSection

/-- The character budget of a run: 4500 minus the footer length minus
the 30-character slack. -/
def budgetOf (time : Time) : Int :=
  4500 - (jsLength (footerString time) : Int) - 30

lemma sectionWeight_append (a b : List String) :
    sectionWeight (a ++ b) = sectionWeight a + sectionWeight b := by
  simp [sectionWeight]

lemma sectionWeight_single (s : String) :
    sectionWeight [s] = (jsLength s : Int) + 2 := by
  simp [sectionWeight]

lemma chunkLoop_head (maxPer : Nat) (budget : Int) :
    ∀ (rest : List String) (cur : List String),
    ∃ t r, chunkLoop maxPer budget cur rest = (cur ++ t) :: r := by
  intro rest
  induction rest with
  | nil =>
    intro cur
    exact ⟨[], [], by simp [chunkLoop]⟩
  | cons s rest ih =>
    intro cur
    rw [chunkLoop]
    by_cases h : forcesSplit maxPer budget cur s = true
    · rw [if_pos h]
      exact ⟨[], chunkLoop maxPer budget [s] rest, by simp⟩
    · rw [if_neg h]
      obtain ⟨t, r, ht⟩ := ih (cur ++ [s])
      exact ⟨[s] ++ t, r, by rw [ht]; simp⟩

lemma chunkLoop_join (maxPer : Nat) (budget : Int) :
    ∀ (rest : List String) (cur : List String),
    (chunkLoop maxPer budget cur rest).flatten = cur ++ rest := by
  intro rest
  induction rest with
  | nil =>
    intro cur
    simp [chunkLoop]
  | cons s rest ih =>
    intro cur
    rw [chunkLoop]
    by_cases h : forcesSplit maxPer budget cur s = true
    · rw [if_pos h]
      simp [ih]
    · rw [if_neg h]
      rw [ih]
      simp

lemma chunkLoop_ne_nil (maxPer : Nat) (budget : Int) :
    ∀ (rest : List String) (cur : List String), cur ≠ [] →
    ∀ c ∈ chunkLoop maxPer budget cur rest, c ≠ [] := by
  intro rest
  induction rest with
  | nil =>
    intro cur hcur c hc
    simp [chunkLoop] at hc
    rw [hc]
    exact hcur
  | cons s rest ih =>
    intro cur hcur c hc
    rw [chunkLoop] at hc
    by_cases h : forcesSplit maxPer budget cur s = true
    · rw [if_pos h] at hc
      rcases List.mem_cons.mp hc with hc | hc
      · rw [hc]; exact hcur
      · exact ih [s] (by simp) c hc
    · rw [if_neg h] at hc
      exact ih (cur ++ [s]) (by simp) c hc

lemma chunkLoop_boundary_forced (maxPer : Nat) (budget : Int) :
    ∀ (rest : List String) (cur : List String)
      (pre : List (List String)) (c₁ : List String) (s : String)
      (c₂ : List String) (post : List (List String)),
    chunkLoop maxPer budget cur rest = pre ++ c₁ :: (s :: c₂) :: post →
    forcesSplit maxPer budget c₁ s = true := by
  intro rest
  induction rest with
  | nil =>
    intro cur pre c₁ s c₂ post h
    have hlen := congrArg List.length h
    simp [chunkLoop] at hlen
    omega
  | cons a rest ih =>
    intro cur pre c₁ s c₂ post h
    rw [chunkLoop] at h
    by_cases hf : forcesSplit maxPer budget cur a = true
    · rw [if_pos hf] at h
      cases pre with
      | nil =>
        simp only [List.nil_append, List.cons.injEq] at h
        obtain ⟨hcur, htail⟩ := h
        obtain ⟨t, r, hhead⟩ := chunkLoop_head maxPer budget rest [a]
        rw [hhead] at htail
        have hh : a :: t = s :: c₂ := ((List.cons.injEq _ _ _ _).mp htail).1
        have hs : a = s := ((List.cons.injEq _ _ _ _).mp hh).1
        rw [← hcur, ← hs]
        exact hf
      | cons p pre =>
        simp only [List.cons_append, List.cons.injEq] at h
        exact ih [a] pre c₁ s c₂ post h.2
    · rw [if_neg hf] at h
      exact ih (cur ++ [a]) pre c₁ s c₂ post h

/-- `cur` was accumulated without ever being forced to split: no proper
non-empty prefix of it is followed by a section that would have forced
a split. -/
def Unforced (maxPer : Nat) (budget : Int) (cur : List String) : Prop :=
  ∀ c₁ s c₂, cur = c₁ ++ s :: c₂ → c₁ ≠ [] →
    forcesSplit maxPer budget c₁ s = false

lemma unforced_single (maxPer : Nat) (budget : Int) (s : String) :
    Unforced maxPer budget [s] := by
  intro c₁ t c₂ h hne
  exfalso
  have hlen := congrArg List.length h
  simp at hlen
  have : c₁.length ≥ 1 := by
    cases c₁ with
    | nil => exact absurd rfl hne
    | cons x xs => simp
  omega

lemma unforced_snoc (maxPer : Nat) (budget : Int) (cur : List String) (a : String)
    (hcur : Unforced maxPer budget cur)
    (hna : forcesSplit maxPer budget cur a = false) :
    Unforced maxPer budget (cur ++ [a]) := by
  intro c₁ s c₂ h hne
  rcases List.eq_nil_or_concat c₂ with hc2 | ⟨c₂', b, hc2⟩
  · rw [hc2] at h
    have hlen : cur.length = c₁.length := by
      have := congrArg List.length h
      simp at this
      omega
    obtain ⟨h1, h2⟩ := List.append_inj h hlen
    have hs : a = s := by
      simpa using h2
    rw [← h1, ← hs]
    exact hna
  · rw [hc2] at h
    have h' : cur ++ [a] = (c₁ ++ s :: c₂') ++ [b] := by
      rw [h]
      simp
    have hlen : cur.length = (c₁ ++ s :: c₂').length := by
      have := congrArg List.length h'
      simp at this
      simp
      omega
    obtain ⟨h1, _⟩ := List.append_inj h' hlen
    exact hcur c₁ s c₂' h1 hne

lemma chunkLoop_chunks_unforced (maxPer : Nat) (budget : Int) :
    ∀ (rest : List String) (cur : List String),
    Unforced maxPer budget cur →
    ∀ c ∈ chunkLoop maxPer budget cur rest, Unforced maxPer budget c := by
  intro rest
  induction rest with
  | nil =>
    intro cur hcur c hc
    simp [chunkLoop] at hc
    rw [hc]
    exact hcur
  | cons a rest ih =>
    intro cur hcur c hc
    rw [chunkLoop] at hc
    by_cases hf : forcesSplit maxPer budget cur a = true
    · rw [if_pos hf] at hc
      rcases List.mem_cons.mp hc with hc | hc
      · rw [hc]; exact hcur
      · exact ih [a] (unforced_single maxPer budget a) c hc
    · rw [if_neg hf] at hc
      exact ih (cur ++ [a])
        (unforced_snoc maxPer budget cur a hcur (Bool.eq_false_iff.mpr hf)) c hc

lemma fnm_cond_eq (cur : List String) (hcur : cur ≠ []) (sec footer : String)
    (maxPer : Nat) (maxChars : Int) :
    (!cur.isEmpty &&
      ((!cur.isEmpty && decide (sectionWeight cur + (jsLength sec : Int) + 2 >
          maxChars - (jsLength footer : Int) - 30)) ||
       decide (cur.length ≥ maxPer)))
    = forcesSplit maxPer (maxChars - (jsLength footer : Int) - 30) cur sec := by
  have hne : cur.isEmpty = false := by
    simpa [List.isEmpty_iff] using hcur
  simp [forcesSplit, hne, Bool.or_comm]

lemma fnmLoop_eq_render (name footer : String) (maxPer : Nat) (maxChars : Int) :
    ∀ (gs : List SourceGroup) (msgs cur : List String) (bIdx : Nat),
    cur ≠ [] →
    fnmLoop name footer maxPer maxChars gs msgs bIdx cur (sectionWeight cur) =
      msgs ++ renderChunks name footer bIdx
        (chunkLoop maxPer (maxChars - (jsLength footer : Int) - 30) cur
          (gs.map formatSourceSection)) := by
  intro gs
  induction gs with
  | nil =>
    intro msgs cur bIdx hcur
    rw [fnmLoop]
    rw [if_neg (by simpa [List.isEmpty_iff] using hcur)]
    simp [chunkLoop, renderChunks]
  | cons g gs ih =>
    intro msgs cur bIdx hcur
    rw [fnmLoop]
    simp only [fnm_cond_eq cur hcur (formatSourceSection g) footer maxPer maxChars]
    by_cases hf : forcesSplit maxPer (maxChars - (jsLength footer : Int) - 30) cur
        (formatSourceSection g) = true
    · rw [if_pos hf]
      have hw : (jsLength (formatSourceSection g) : Int) + 2 =
          sectionWeight [formatSourceSection g] := (sectionWeight_single _).symm
      rw [hw, ih (msgs ++ [messageHeader name bIdx ++ "\n" ++
            String.intercalate "\n\n" cur ++ footer]) [formatSourceSection g]
          (bIdx + 1) (by simp)]
      rw [List.map_cons, chunkLoop, if_pos hf, renderChunks]
      simp
    · rw [if_neg hf]
      have hw : sectionWeight cur + (jsLength (formatSourceSection g) : Int) + 2 =
          sectionWeight (cur ++ [formatSourceSection g]) := by
        rw [sectionWeight_append, sectionWeight_single]
        ring
      rw [hw, ih msgs (cur ++ [formatSourceSection g]) bIdx (by simp)]
      rw [List.map_cons, chunkLoop, if_neg hf]

lemma formatNewsMessages_eq_render (time : Time) (name : String)
    (groups : List SourceGroup) (maxPer : Nat) (maxChars : Int)
    (h : sectionsOf groups ≠ []) :
    formatNewsMessages time name groups maxPer maxChars =
      renderChunks name (footerString time) 0
        (chunkSections maxPer (maxChars - (jsLength (footerString time) : Int) - 30)
          (sectionsOf groups)) := by
  have hne : (groups.filter (fun g => !g.items.isEmpty)) ≠ [] := by
    intro hx
    apply h
    rw [sectionsOf, hx]
    rfl
  rw [formatNewsMessages]
  rw [if_neg (by simpa [List.isEmpty_iff] using hne)]
  rcases hx : groups.filter (fun g => !g.items.isEmpty) with _ | ⟨g, gs⟩
  · exact absurd hx hne
  · rw [hx, fnmLoop]
    have hcond : ((!(([] : List String)).isEmpty &&
        ((!(([] : List String)).isEmpty && decide ((0 : Int) + (jsLength (formatSourceSection g) : Int) + 2 >
            maxChars - (jsLength (footerString time) : Int) - 30)) ||
         decide (([] : List String).length ≥ maxPer)))) = false := by
      simp
    rw [hcond]
    simp only [Bool.false_eq_true, if_false]
    have hw : (0 : Int) + (jsLength (formatSourceSection g) : Int) + 2 =
        sectionWeight ([] ++ [formatSourceSection g]) := by
      rw [List.nil_append, sectionWeight_single]
      ring
    rw [hw, List.nil_append]
    rw [fnmLoop_eq_render name (footerString time) maxPer maxChars gs [] _ 0 (by simp)]
    rw [sectionsOf, hx]
    simp [chunkSections]

/-- C4: with the default limits (3 sections, 4500 characters),
`formatNewsMessages` renders exactly the greedy chunking of the
non-empty groups' sections: no section is ever split or reordered
(each chunk is rendered whole into one message), every chunk boundary
is forced by one of the two split conditions, and no split happens
inside a chunk where neither condition held — so a chunk may hold a
single section exceeding the budget. -/
theorem format_split_policy (time : Time) (categoryName : String)
    (groups : List SourceGroup) (h : sectionsOf groups ≠ []) :
    formatNewsMessages time categoryName groups 3 4500 =
      renderChunks categoryName (footerString time) 0
        (chunkSections 3 (budgetOf time) (sectionsOf groups)) ∧
    (chunkSections 3 (budgetOf time) (sectionsOf groups)).flatten =
      sectionsOf groups ∧
    (∀ c ∈ chunkSections 3 (budgetOf time) (sectionsOf groups), c ≠ []) ∧
    (∀ pre c₁ s c₂ post,
      chunkSections 3 (budgetOf time) (sectionsOf groups) =
        pre ++ c₁ :: (s :: c₂) :: post →
      forcesSplit 3 (budgetOf time) c₁ s = true) ∧
    (∀ pre c post,
      chunkSections 3 (budgetOf time) (sectionsOf groups) = pre ++ c :: post →
      ∀ c₁ s c₂, c = c₁ ++ s :: c₂ → c₁ ≠ [] →
      forcesSplit 3 (budgetOf time) c₁ s = false) := by
  have hb : budgetOf time = 4500 - (jsLength (footerString time) : Int) - 30 := rfl
  rcases hx : sectionsOf groups with _ | ⟨s, ss⟩
  · exact absurd hx h
  · refine ⟨?_, ?_, ?_, ?_, ?_⟩
    · rw [formatNewsMessages_eq_render time categoryName groups 3 4500 h, hb, hx]
    · rw [chunkSections, chunkLoop_join]
      rfl
    · rw [chunkSections]
      exact chunkLoop_ne_nil 3 (budgetOf time) ss [s] (by simp)
    · intro pre c₁ t c₂ post hdec
      rw [chunkSections] at hdec
      exact chunkLoop_boundary_forced 3 (budgetOf time) ss [s] pre c₁ t c₂ post hdec
    · intro pre c post hdec c₁ t c₂ hc hne
      rw [chunkSections] at hdec
      have hmem : c ∈ chunkLoop 3 (budgetOf time) [s] ss := by
        rw [hdec]
        simp
      exact chunkLoop_chunks_unforced 3 (budgetOf time) ss [s]
        (unforced_single 3 (budgetOf time) s) c hmem c₁ t c₂ hc hne

/-- Witness inputs for the formatter claims. -/
def sampleTime : Time := ⟨2025, 1, 2, 3, 4⟩

/-- A one-item source group used as witness input. -/
def sampleGroup : SourceGroup :=
  ⟨"源", [⟨"标题", "http", "s", none, none⟩]⟩

/-- Witness for C4 at a concrete one-group input. -/
theorem format_split_policy_witness :
    sectionsOf [sampleGroup] ≠ [] ∧
    (formatNewsMessages sampleTime "新闻" [sampleGroup] 3 4500 =
      renderChunks "新闻" (footerString sampleTime) 0
        (chunkSections 3 (budgetOf sampleTime) (sectionsOf [sampleGroup])) ∧
    (chunkSections 3 (budgetOf sampleTime) (sectionsOf [sampleGroup])).flatten =
      sectionsOf [sampleGroup] ∧
    (∀ c ∈ chunkSections 3 (budgetOf sampleTime) (sectionsOf [sampleGroup]), c ≠ []) ∧
    (∀ pre c₁ s c₂ post,
      chunkSections 3 (budgetOf sampleTime) (sectionsOf [sampleGroup]) =
        pre ++ c₁ :: (s :: c₂) :: post →
      forcesSplit 3 (budgetOf sampleTime) c₁ s = true) ∧
    (∀ pre c post,
      chunkSections 3 (budgetOf sampleTime) (sectionsOf [sampleGroup]) = pre ++ c :: post →
      ∀ c₁ s c₂, c = c₁ ++ s :: c₂ → c₁ ≠ [] →
      forcesSplit 3 (budgetOf sampleTime) c₁ s = false)) :=
  ⟨by decide, format_split_policy sampleTime "新闻" [sampleGroup] (by decide)⟩

lemma renderChunks_footer (name footer : String) :
    ∀ (chunks : List (List String)) (bIdx : Nat),
    ∀ msg ∈ renderChunks name footer bIdx chunks, ∃ p, msg = p ++ footer := by
  intro chunks
  induction chunks with
  | nil =>
    intro bIdx msg hmsg
    simp [renderChunks] at hmsg
  | cons c rest ih =>
    intro bIdx msg hmsg
    rw [renderChunks] at hmsg
    rcases List.mem_cons.mp hmsg with hm | hm
    · exact ⟨messageHeader name bIdx ++ "\n" ++ String.intercalate "\n\n" c, hm⟩
    · exact ih (bIdx + 1) msg hm

set_option maxRecDepth 4000 in
/-- C8 counterexample: on empty input `formatNewsMessages` returns the
single no-data message, which contains no `-` and no `:` at all, while
any `YYYY-MM-DD HH:mm` timestamp footer (here at the formatter's own
run time) does; so this message does not end with a timestamp line. -/
theorem no_data_message_lacks_footer :
    formatNewsMessages sampleTime "测试" [] 3 4500 = ["## 测试\n\n暂无新闻数据。"] ∧
    ("## 测试\n\n暂无新闻数据。".data.contains '-') = false ∧
    ("## 测试\n\n暂无新闻数据。".data.contains ':') = false ∧
    ('-' ∈ (formatTime sampleTime).data) ∧
    (("## 测试\n\n暂无新闻数据。".endsWith (footerString sampleTime)) = false) := by
  refine ⟨?_, by decide, by decide, by decide, by decide⟩
  rw [formatNewsMessages]
  rfl

/-- C8 amended: when at least one group has items, every returned
message ends with the `"\n\n> 更新时间：YYYY-MM-DD HH:mm"` footer; when
no group has items, the single returned message carries the category
header but no footer. -/
theorem messages_end_with_footer (time : Time) (name : String)
    (groups : List SourceGroup) :
    (sectionsOf groups ≠ [] →
      ∀ msg ∈ formatNewsMessages time name groups 3 4500,
        ∃ p, msg = p ++ footerString time) ∧
    (sectionsOf groups = [] →
      formatNewsMessages time name groups 3 4500 =
        ["## " ++ name ++ "\n\n暂无新闻数据。"]) := by
  constructor
  · intro h msg hmsg
    rw [formatNewsMessages_eq_render time name groups 3 4500 h] at hmsg
    exact renderChunks_footer name (footerString time) _ 0 msg hmsg
  · intro h
    have hne : (groups.filter (fun g => !g.items.isEmpty)) = [] := by
      rcases hx : groups.filter (fun g => !g.items.isEmpty) with _ | ⟨g, gs⟩
      · exact hx
      · exfalso
        rw [sectionsOf, hx] at h
        simp at h
    rw [formatNewsMessages, hne]
    rfl

/-- Witness for C8 (amended) at concrete inputs: a one-group run whose
message ends with the footer, and the empty run's no-data message. -/
theorem messages_end_with_footer_witness :
    (∀ msg ∈ formatNewsMessages sampleTime "新闻" [sampleGroup] 3 4500,
      ∃ p, msg = p ++ footerString sampleTime) ∧
    formatNewsMessages sampleTime "新闻" [] 3 4500 =
      ["## " ++ "新闻" ++ "\n\n暂无新闻数据。"] :=
  ⟨(messages_end_with_footer sampleTime "新闻" [sampleGroup]).1 (by decide),
   (messages_end_with_footer sampleTime "新闻" []).2 (by decide)⟩

/-- The closed set of webhook platform types (`config/types.ts`
`WebhookType`); `createWebhookAdapter` is total on it, one adapter per
configured name. -/
inductive WebhookKind
  | wpsTeams
  | wecom
deriving DecidableEq, Repr

/-- A webhook endpoint configuration (`config/types.ts`). -/
structure WebhookCfg where
  kind : WebhookKind
  url : String
deriving DecidableEq, Repr

/-- The part of a category configuration the dispatch delivery loop
reads: the display name and the webhook ids to deliver to. -/
structure CategoryCfg where
  name : String
  webhooks : List String
deriving DecidableEq, Repr

/-- Observable events of one dispatch run, in chronological order. -/
inductive DispatchEvent
  | warnUnknownCategory (categoryId : String)
  | skipNoData (categoryId : String)
  | warnUnknownWebhook (webhookId : String)
  | sendAttempt (webhookId : String) (message : String) (ok : Bool)
deriving DecidableEq, Repr

/-- The network-bound collaborators of `dispatch`: `produce` abstracts
the fetch → filter → dedup → translate → format pipeline of one
category (`none` when no data was fetched and the category is
skipped), and `send` is the outcome of one `sendMarkdown` call — a
`false` outcome covers both an error response and a thrown error,
which `dispatch` catches. -/
structure DispatchEnv where
  produce : String → Option (List String)
  send : String → String → Bool

/-- The inner delivery loop of `dispatch`: for each webhook id of the
category, look the adapter up (warn and continue when missing), then
send every message in order, catching failures and continuing. -/
def deliverLoop (adapters : List String) (send : String → String → Bool)
    (messages : List String) : List String → List DispatchEvent
  | [] => []
  | w :: ws =>
    if adapters.contains w then
      (messages.map (fun m => DispatchEvent.sendAttempt w m (send w m))) ++
        deliverLoop adapters send messages ws
    else
      DispatchEvent.warnUnknownWebhook w :: deliverLoop adapters send messages ws

/-- The category loop of `dispatch`: unknown category ids are warned
and skipped; a category with no data is skipped; otherwise its
messages are fanned out to its webhooks. -/
def dispatchModel (webhooks : List (String × WebhookCfg))
    (categories : List (String × CategoryCfg)) (env : DispatchEnv) :
    List String → List DispatchEvent
  | [] => []
  | cid :: rest =>
    match categories.lookup cid with
    | none =>
      DispatchEvent.warnUnknownCategory cid ::
        dispatchModel webhooks categories env rest
    | some cat =>
      match env.produce cid with
      | none =>
        DispatchEvent.skipNoData cid :: dispatchModel webhooks categories env rest
      | some messages =>
        deliverLoop (webhooks.map Prod.fst) env.send messages cat.webhooks ++
          dispatchModel webhooks categories env rest

/-- Forgets send outcomes, keeping which sends were attempted. -/
def eraseOutcome : DispatchEvent → DispatchEvent
  | .sendAttempt w m _ => .sendAttempt w m true
  | e => e

/-- The (webhook, message) pairs attempted in an event list. -/
def attemptsOf (evts : List DispatchEvent) : List (String × String) :=
  evts.filterMap (fun e => match e with
    | .sendAttempt w m _ => some (w, m)
    | _ => none)

lemma deliverLoop_erase (adapters : List String)
    (s₁ s₂ : String → String → Bool) (messages : List String) :
    ∀ ws : List String,
    (deliverLoop adapters s₁ messages ws).map eraseOutcome =
      (deliverLoop adapters s₂ messages ws).map eraseOutcome := by
  intro ws
  induction ws with
  | nil => rfl
  | cons w ws ih =>
    rw [deliverLoop, deliverLoop]
    by_cases h : adapters.contains w = true
    · rw [if_pos h, if_pos h]
      simp only [List.map_append, List.map_map, ih]
      have he : ∀ s : String → String → Bool,
          (eraseOutcome ∘ fun m => DispatchEvent.sendAttempt w m (s w m)) =
            (fun m => DispatchEvent.sendAttempt w m true) := by
        intro s
        funext m
        rfl
      rw [he s₁, he s₂]
    · rw [if_neg h, if_neg h]
      simp only [List.map_cons, ih]

lemma attemptsOf_sendList (w : String) (send : String → String → Bool)
    (messages : List String) :
    attemptsOf (messages.map (fun m => DispatchEvent.sendAttempt w m (send w m))) =
      messages.map (fun m => (w, m)) := by
  induction messages with
  | nil => rfl
  | cons m ms ih =>
    simp only [List.map_cons, attemptsOf, List.filterMap_cons]
    exact congrArg _ (by simpa [attemptsOf] using ih)

lemma deliverLoop_attempts (adapters : List String)
    (send : String → String → Bool) (messages : List String) :
    ∀ ws : List String,
    attemptsOf (deliverLoop adapters send messages ws) =
      (ws.filter (fun w => adapters.contains w)).flatMap
        (fun w => messages.map (fun m => (w, m))) := by
  intro ws
  induction ws with
  | nil => rfl
  | cons w ws ih =>
    rw [deliverLoop]
    by_cases h : adapters.contains w = true
    · rw [if_pos h]
      rw [List.filter_cons_of_pos h, List.flatMap_cons]
      rw [attemptsOf, List.filterMap_append, ← attemptsOf, ← attemptsOf, ih,
        attemptsOf_sendList]
    · rw [if_neg h]
      rw [List.filter_cons_of_neg (by simpa using h)]
      rw [← ih]
      rw [attemptsOf, attemptsOf, List.filterMap_cons]

/-- C9: dispatch error containment. (1) Which (webhook, message) sends
are attempted, and the whole event sequence up to send outcomes, is
independent of the send outcomes: a failed send never prevents the
remaining messages and webhooks of the run.  (2) Within one category
every message is attempted on every known webhook, in webhook-then-
message order, whatever the outcomes.  (3) An unknown category id is
warned and skipped, the rest of the run continuing.  (4) An unknown
webhook id is warned and skipped, the rest of the delivery
continuing. -/
theorem dispatch_error_containment :
    (∀ (webhooks : List (String × WebhookCfg))
       (categories : List (String × CategoryCfg))
       (env₁ env₂ : DispatchEnv) (ids : List String),
      env₁.produce = env₂.produce →
      (dispatchModel webhooks categories env₁ ids).map eraseOutcome =
        (dispatchModel webhooks categories env₂ ids).map eraseOutcome) ∧
    (∀ (adapters : List String) (send : String → String → Bool)
       (messages : List String) (ws : List String),
      attemptsOf (deliverLoop adapters send messages ws) =
        (ws.filter (fun w => adapters.contains w)).flatMap
          (fun w => messages.map (fun m => (w, m)))) ∧
    (∀ (webhooks : List (String × WebhookCfg))
       (categories : List (String × CategoryCfg)) (env : DispatchEnv)
       (cid : String) (rest : List String),
      categories.lookup cid = none →
      dispatchModel webhooks categories env (cid :: rest) =
        DispatchEvent.warnUnknownCategory cid ::
          dispatchModel webhooks categories env rest) ∧
    (∀ (adapters : List String) (send : String → String → Bool)
       (messages : List String) (w : String) (ws : List String),
      adapters.contains w = false →
      deliverLoop adapters send messages (w :: ws) =
        DispatchEvent.warnUnknownWebhook w :: deliverLoop adapters send messages ws) := by
  refine ⟨?_, deliverLoop_attempts, ?_, ?_⟩
  · intro webhooks categories env₁ env₂ ids hp
    induction ids with
    | nil => rfl
    | cons cid rest ih =>
      rw [dispatchModel, dispatchModel]
      cases hcat : categories.lookup cid with
      | none =>
        simp only [List.map_cons, ih]
      | some cat =>
        rw [hp]
        cases hprod : env₂.produce cid with
        | none =>
          simp only [List.map_cons, ih]
        | some messages =>
          simp only [List.map_append, ih]
          congr 1
          exact deliverLoop_erase (webhooks.map Prod.fst) env₁.send env₂.send
            messages cat.webhooks
  · intro webhooks categories env cid rest hc
    rw [dispatchModel, hc]
  · intro adapters send messages w ws hw
    rw [deliverLoop, hw]
    simp

/-- Witness for C9 at a concrete configuration: all sends failing and
all sends succeeding attempt the same deliveries, an unknown category
id is warned and skipped, and an unknown webhook id is warned and
skipped. -/
theorem dispatch_error_containment_witness :
    ((dispatchModel [("X", ⟨WebhookKind.wpsTeams, "u"⟩), ("Y", ⟨WebhookKind.wecom, "v"⟩)]
        [("ai", ⟨"AI", ["X", "Y"]⟩)]
        ⟨fun _ => some ["m1", "m2"], fun _ _ => false⟩ ["ai"]).map eraseOutcome =
      (dispatchModel [("X", ⟨WebhookKind.wpsTeams, "u"⟩), ("Y", ⟨WebhookKind.wecom, "v"⟩)]
        [("ai", ⟨"AI", ["X", "Y"]⟩)]
        ⟨fun _ => some ["m1", "m2"], fun _ _ => true⟩ ["ai"]).map eraseOutcome) ∧
    (dispatchModel [("X", ⟨WebhookKind.wpsTeams, "u"⟩)]
        [("ai", ⟨"AI", ["X"]⟩)] ⟨fun _ => some ["m1"], fun _ _ => true⟩
        ("news" :: ["ai"]) =
      DispatchEvent.warnUnknownCategory "news" ::
        dispatchModel [("X", ⟨WebhookKind.wpsTeams, "u"⟩)]
          [("ai", ⟨"AI", ["X"]⟩)] ⟨fun _ => some ["m1"], fun _ _ => true⟩ ["ai"]) ∧
    (deliverLoop ["X", "Y"] (fun _ _ => false) ["m1"] ("Z" :: ["X"]) =
      DispatchEvent.warnUnknownWebhook "Z" ::
        deliverLoop ["X", "Y"] (fun _ _ => false) ["m1"] ["X"]) :=
  ⟨dispatch_error_containment.1
      [("X", ⟨WebhookKind.wpsTeams, "u"⟩), ("Y", ⟨WebhookKind.wecom, "v"⟩)]
      [("ai", ⟨"AI", ["X", "Y"]⟩)]
      ⟨fun _ => some ["m1", "m2"], fun _ _ => false⟩
      ⟨fun _ => some ["m1", "m2"], fun _ _ => true⟩ ["ai"] rfl,
   dispatch_error_containment.2.2.1 [("X", ⟨WebhookKind.wpsTeams, "u"⟩)]
      [("ai", ⟨"AI", ["X"]⟩)] ⟨fun _ => some ["m1"], fun _ _ => true⟩
      "news" ["ai"] (by decide),
   dispatch_error_containment.2.2.2 ["X", "Y"] (fun _ _ => false) ["m1"]
      "Z" ["X"] (by decide)⟩

/-- An RSS feed source configuration (`config/types.ts`). -/
structure RssSourceConfig where
  name : String
  url : String
deriving DecidableEq, Repr

/-- One raw item of a parsed feed (`rss-parser` output): `title` and
`link` may be absent, and `pubDate`, when the item carries a date
string, is modelled by its parsed timestamp. -/
structure RawFeedItem where
  title : Option String
  link : Option String
  pubDate : Option Int
deriving DecidableEq, Repr

/-- JavaScript `String.prototype.trim` (strips the `\s` class from both
ends). -/
def jsTrim (s : String) : String :=
  String.mk (((s.data.dropWhile isJsWhitespace).reverse.dropWhile
    isJsWhitespace).reverse)

/-- `fetchSingleFeed` (`rss-source.ts`): on any fetch/parse error the
catch returns `[]`; otherwise items are mapped to `NewsItem`s (missing
title/link become empty strings, titles trimmed) and items without a
title or link are dropped. -/
def fetchSingleFeed (feed : Except Unit (List RawFeedItem))
    (source : RssSourceConfig) : List NewsItem :=
  match feed with
  | .error _ => []
  | .ok items =>
    (items.map (fun item =>
      ({ title := jsTrim (item.title.getD ""),
         link := item.link.getD "",
         source := source.name,
         pubDate := item.pubDate,
         extra := none } : NewsItem))).filter
      (fun it => !(it.title == "") && !(it.link == ""))

/-- The link-dedup pass of `fetchSingleRssSource`: keep an item iff its
link was not seen yet, first occurrence winning. -/
def dedupByLink : List NewsItem → List String → List NewsItem
  | [], _ => []
  | x :: xs, seen =>
    if seen.contains x.link then dedupByLink xs seen
    else x :: dedupByLink xs (x.link :: seen)

/-- The sort order of the comparator `(a, b) => timeB - timeA`: newest
first, a missing `pubDate` counting as timestamp 0. -/
def newsDescByDate (a b : NewsItem) : Prop :=
  b.pubDate.getD 0 ≤ a.pubDate.getD 0

instance : DecidableRel newsDescByDate := fun a b =>
  inferInstanceAs (Decidable (b.pubDate.getD 0 ≤ a.pubDate.getD 0))

instance : IsTotal NewsItem newsDescByDate :=
  ⟨fun a b => le_total (b.pubDate.getD 0) (a.pubDate.getD 0)⟩

instance : IsTrans NewsItem newsDescByDate :=
  ⟨fun _ _ _ hab hbc => le_trans hbc hab⟩

/-- `fetchSingleRssSource` (`rss-source.ts`): dedup by link, stable
sort by publication time descending (`Array.prototype.sort` is stable,
modelled by the stable insertion sort over the comparator's order),
then the first `count` items. -/
def fetchSingleRssSource (feed : Except Unit (List RawFeedItem))
    (source : RssSourceConfig) (count : Nat) : List NewsItem :=
  let items := fetchSingleFeed feed source
  let unique := dedupByLink items []
  let sorted := List.insertionSort newsDescByDate unique
  sorted.take count

lemma dedupByLink_spec :
    ∀ (l : List NewsItem) (seen : List String),
    ∀ x ∈ dedupByLink l seen,
      seen.contains x.link = false ∧
      l.find? (fun y => y.link == x.link) = some x := by
  intro l
  induction l with
  | nil =>
    intro seen x hx
    simp [dedupByLink] at hx
  | cons y ys ih =>
    intro seen x hx
    rw [dedupByLink] at hx
    by_cases h : seen.contains y.link = true
    · rw [if_pos h] at hx
      obtain ⟨hns, hfind⟩ := ih seen x hx
      have hyx : y.link ≠ x.link := by
        intro he
        rw [he] at h
        rw [hns] at h
        exact Bool.false_ne_true h
      exact ⟨hns, by rw [List.find?_cons_of_neg _ (by simp [hyx])]; exact hfind⟩
    · rw [if_neg h] at hx
      rcases List.mem_cons.mp hx with hx | hx
      · subst hx
        refine ⟨Bool.eq_false_iff.mpr h, ?_⟩
        rw [List.find?_cons_of_pos _ (by simp)]
      · obtain ⟨hns, hfind⟩ := ih (y.link :: seen) x hx
        have hne2 : ¬ x.link = y.link ∧ x.link ∉ seen := by
          simpa [List.contains_cons] using hns
        refine ⟨by simpa using hne2.2, ?_⟩
        rw [List.find?_cons_of_neg _ (by simp; exact fun he => hne2.1 he.symm)]
        exact hfind

lemma dedupByLink_nodup :
    ∀ (l : List NewsItem) (seen : List String),
    ((dedupByLink l seen).map NewsItem.link).Nodup := by
  intro l
  induction l with
  | nil =>
    intro seen
    simp [dedupByLink]
  | cons y ys ih =>
    intro seen
    rw [dedupByLink]
    by_cases h : seen.contains y.link = true
    · rw [if_pos h]
      exact ih seen
    · rw [if_neg h]
      rw [List.map_cons, List.nodup_cons]
      refine ⟨?_, ih (y.link :: seen)⟩
      intro hmem
      obtain ⟨x, hx, hlink⟩ := List.mem_map.mp hmem
      obtain ⟨hns, _⟩ := dedupByLink_spec ys (y.link :: seen) x hx
      rw [List.contains_cons, hlink] at hns
      simp at hns

/-- C10 (amended): `fetchSingleRssSource` returns at most `count`
items, each with non-empty title and link; links are pairwise distinct
and each returned item is the first feed item bearing its link; the
result is sorted by effective timestamp (`pubDate` defaulting to the
epoch 0 when absent) in descending order; and any fetch/parse failure
yields `[]`. -/
theorem fetch_rss_source_shape (feed : Except Unit (List RawFeedItem))
    (source : RssSourceConfig) (count : Nat) :
    (fetchSingleRssSource feed source count).length ≤ count ∧
    (∀ x ∈ fetchSingleRssSource feed source count,
      x.title ≠ "" ∧ x.link ≠ "") ∧
    ((fetchSingleRssSource feed source count).map NewsItem.link).Nodup ∧
    (∀ x ∈ fetchSingleRssSource feed source count,
      (fetchSingleFeed feed source).find? (fun y => y.link == x.link) = some x) ∧
    List.Sorted newsDescByDate (fetchSingleRssSource feed source count) ∧
    fetchSingleRssSource (Except.error ()) source count = [] := by
  have hperm : (List.insertionSort newsDescByDate
      (dedupByLink (fetchSingleFeed feed source) [])).Perm
      (dedupByLink (fetchSingleFeed feed source) []) :=
    List.perm_insertionSort _ _
  have hout : fetchSingleRssSource feed source count =
      (List.insertionSort newsDescByDate
        (dedupByLink (fetchSingleFeed feed source) [])).take count := rfl
  have hmem : ∀ x ∈ fetchSingleRssSource feed source count,
      x ∈ dedupByLink (fetchSingleFeed feed source) [] := by
    intro x hx
    rw [hout] at hx
    exact hperm.mem_iff.mp (List.mem_of_mem_take hx)
  refine ⟨?_, ?_, ?_, ?_, ?_, ?_⟩
  · rw [hout]
    exact List.length_take_le _ _
  · intro x hx
    obtain ⟨_, hfind⟩ := dedupByLink_spec _ [] x (hmem x hx)
    have hxl : x ∈ fetchSingleFeed feed source := List.mem_of_find?_eq_some hfind
    rcases feed with e | items
    · simp [fetchSingleFeed] at hxl
    · rw [fetchSingleFeed] at hxl
      have hp := (List.mem_filter.mp hxl).2
      simp at hp
      exact hp
  · rw [hout, List.map_take]
    apply List.Nodup.sublist (List.take_sublist _ _)
    exact ((hperm.map NewsItem.link).nodup_iff).mpr (dedupByLink_nodup _ [])
  · intro x hx
    exact (dedupByLink_spec _ [] x (hmem x hx)).2
  · rw [hout]
    exact List.Pairwise.sublist (List.take_sublist _ _)
      (List.sorted_insertionSort newsDescByDate _)
  · simp [fetchSingleRssSource, fetchSingleFeed, dedupByLink]

/-- C10 counterexample: a feed holding an item dated before the epoch
and an item with no date at all.  The undated item (effective key 0) is
returned FIRST — i.e. as the newest — while the dated item follows, so
an item lacking a publication date is not ordered as oldest. -/
theorem rss_missing_date_not_oldest :
    fetchSingleRssSource (Except.ok
        [⟨some "a", some "la", some (-1000)⟩, ⟨some "b", some "lb", none⟩])
        ⟨"src", "u"⟩ 10 =
      [⟨"b", "lb", "src", none, none⟩, ⟨"a", "la", "src", some (-1000), none⟩] ∧
    (⟨"b", "lb", "src", none, none⟩ : NewsItem).pubDate = none ∧
    (⟨"a", "la", "src", some (-1000), none⟩ : NewsItem).pubDate ≠ none := by
  refine ⟨?_, rfl, by simp⟩
  decide

/-- Witness for C10 at a concrete one-item feed. -/
theorem fetch_rss_source_shape_witness :
    ((⟨"t", "l", "src", some 5, none⟩ : NewsItem) ∈
      fetchSingleRssSource (Except.ok [⟨some "t", some "l", some 5⟩])
        ⟨"src", "u"⟩ 3) ∧
    ((⟨"t", "l", "src", some 5, none⟩ : NewsItem).title ≠ "" ∧
     (⟨"t", "l", "src", some 5, none⟩ : NewsItem).link ≠ "") ∧
    ((fetchSingleFeed (Except.ok [⟨some "t", some "l", some 5⟩])
        ⟨"src", "u"⟩).find?
      (fun y => y.link == (⟨"t", "l", "src", some 5, none⟩ : NewsItem).link) =
      some ⟨"t", "l", "src", some 5, none⟩) :=
  have hmem : (⟨"t", "l", "src", some 5, none⟩ : NewsItem) ∈
      fetchSingleRssSource (Except.ok [⟨some "t", some "l", some 5⟩])
        ⟨"src", "u"⟩ 3 := by decide
  ⟨hmem,
   (fetch_rss_source_shape (Except.ok [⟨some "t", some "l", some 5⟩])
      ⟨"src", "u"⟩ 3).2.1 _ hmem,
   (fetch_rss_source_shape (Except.ok [⟨some "t", some "l", some 5⟩])
      ⟨"src", "u"⟩ 3).2.2.2.1 _ hmem⟩
